import Mathlib

/-!
Verification of the `simlab` Monte Carlo experimentation core.

Shallow embedding of:
- `src/simlab/intervals.py` (`_normal_inverse_cdf`, `wilson_interval`),
- `src/simlab/simulate.py` (`SimulationResult`, `_run_trials`),
- `src/simlab/sweep.py` (`run_sweep_to_csv`).

Machine floats are modelled as real numbers; Python `raise` statements and
Python runtime errors (ZeroDivisionError, IndexError, AttributeError, math
domain errors) are modelled with `Except String`.  The external `abtk` test
oracles and the Mersenne-Twister internals of `random.Random` are abstracted
as parameters (an opaque-state random source and per-trial p-value kernels);
everything that lives in the repository is translated literally.
-/

namespace SimLab

/-- Python `math.log`: raises a math domain error on non-positive input. -/
noncomputable def pyLog (x : ℝ) : Except String ℝ :=
  if x ≤ 0 then .error "math domain error" else .ok (Real.log x)

/-- Python `math.sqrt`: raises a math domain error on negative input. -/
noncomputable def pySqrt (x : ℝ) : Except String ℝ :=
  if x < 0 then .error "math domain error" else .ok (Real.sqrt x)

/-- `ProportionInterval` dataclass from `intervals.py`. -/
structure ProportionInterval where
  estimate : ℝ
  low : ℝ
  high : ℝ

/-- Central-region numerator polynomial of `_normal_inverse_cdf`
(Horner form `(((((a0*r+a1)*r+a2)*r+a3)*r+a4)*r+a5)` with the `a` list
from `intervals.py`, coefficients written out in plain decimal). -/
noncomputable def central_num (r : ℝ) : ℝ :=
  (((((-39.69683028665376) * r + 220.9460984245205) * r + (-275.9285104469687)) * r
      + 138.3577518672690) * r + (-30.66479806614716)) * r + 2.506628277459239

/-- Central-region denominator polynomial of `_normal_inverse_cdf`
(the `b` list from `intervals.py`). -/
noncomputable def central_den (r : ℝ) : ℝ :=
  (((((-54.47609879822406) * r + 161.5858368580409) * r + (-155.6989798598866)) * r
      + 66.80131188771972) * r + (-13.28068155288572)) * r + 1

/-- Tail numerator polynomial of `_normal_inverse_cdf` (the `c` list). -/
noncomputable def tail_num (q : ℝ) : ℝ :=
  (((((-7.784894002430293e-3) * q + (-0.3223964580411365)) * q + (-2.400758277161838)) * q
      + (-2.549732539343734)) * q + 4.374664141464968) * q + 2.938163982698783

/-- Tail denominator polynomial of `_normal_inverse_cdf` (the `d` list). -/
noncomputable def tail_den (q : ℝ) : ℝ :=
  (((7.784695709041462e-3 * q + 0.3224671290700398) * q + 2.445134137142996) * q
      + 3.754408661907416) * q + 1

/-- The `plow` constant of `_normal_inverse_cdf`. -/
noncomputable def plow : ℝ := 0.02425

/-- `_normal_inverse_cdf` from `intervals.py`: Acklam-style rational
approximation of the standard normal inverse CDF, with the explicit
`ValueError` on `p` outside `(0,1)` and Python math domain errors modelled
in `Except`. -/
noncomputable def normal_inverse_cdf (p : ℝ) : Except String ℝ :=
  if ¬ (0 < p ∧ p < 1) then .error "p must be between 0 and 1 (exclusive)."
  else if p < plow then do
    let l ← pyLog p
    let q ← pySqrt (-2 * l)
    .ok (tail_num q / tail_den q)
  else if 1 - plow < p then do
    let l ← pyLog (1 - p)
    let q ← pySqrt (-2 * l)
    .ok (-(tail_num q / tail_den q))
  else
    let q := p - 0.5
    let r := q * q
    .ok (central_num r * q / central_den r)

/-- Total-function form of `_normal_inverse_cdf` on `(0,1)` (the domain
errors are unreachable there, see `normal_inverse_cdf_ok`). -/
noncomputable def normalInvCdfFun (p : ℝ) : ℝ :=
  if p < plow then
    tail_num (Real.sqrt (-2 * Real.log p)) / tail_den (Real.sqrt (-2 * Real.log p))
  else if 1 - plow < p then
    -(tail_num (Real.sqrt (-2 * Real.log (1 - p))) / tail_den (Real.sqrt (-2 * Real.log (1 - p))))
  else
    central_num ((p - 0.5) * (p - 0.5)) * (p - 0.5) / central_den ((p - 0.5) * (p - 0.5))

/-- `wilson_interval` from `intervals.py`, with its three `ValueError`
precondition checks in source order and the numeric core in `Except`. -/
noncomputable def wilson_interval (successes trials : ℤ) (confidence : ℝ) :
    Except String ProportionInterval :=
  if trials ≤ 0 then .error "trials must be positive."
  else if successes < 0 ∨ trials < successes then
    .error "successes must be between 0 and trials."
  else if confidence ≤ 0 ∨ 1 ≤ confidence then
    .error "confidence must be between 0 and 1 (exclusive)."
  else do
    let z ← normal_inverse_cdf (0.5 + confidence / 2)
    let n : ℝ := (trials : ℝ)
    let phat : ℝ := (successes : ℝ) / n
    let denom : ℝ := 1 + z ^ 2 / n
    let center : ℝ := (phat + z ^ 2 / (2 * n)) / denom
    let s ← pySqrt (phat * (1 - phat) / n + z ^ 2 / (4 * n * n))
    let half_width : ℝ := (z / denom) * s
    .ok ⟨phat, max 0 (center - half_width), min 1 (center + half_width)⟩

/-- The Wilson score interval as the spec states it (§4.5): `z` is the
inverse normal CDF at `0.5 + confidence/2`, `p̂ = successes/trials`,
`denom = 1 + z²/trials`, `center = (p̂ + z²/(2·trials))/denom`,
`half_width = (z/denom)·sqrt(p̂·(1−p̂)/trials + z²/(4·trials²))`,
`low = max(0, center − half_width)`, `high = min(1, center + half_width)`,
`estimate = p̂`.  Used only to compare the code against the spec. -/
noncomputable def wilsonSpec (successes trials : ℤ) (confidence : ℝ) : ProportionInterval :=
  let z := normalInvCdfFun (0.5 + confidence / 2)
  let phat : ℝ := (successes : ℝ) / (trials : ℝ)
  let denom : ℝ := 1 + z ^ 2 / (trials : ℝ)
  let center : ℝ := (phat + z ^ 2 / (2 * (trials : ℝ))) / denom
  let half_width : ℝ :=
    (z / denom) * Real.sqrt (phat * (1 - phat) / (trials : ℝ) + z ^ 2 / (4 * (trials : ℝ) ^ 2))
  ⟨phat, max 0 (center - half_width), min 1 (center + half_width)⟩

/-! ## Embedding of `src/simlab/simulate.py` -/

/-- `SimulationResult` dataclass from `simulate.py`.  Its fields are exactly
`trials`, `alpha`, `rejection_rate` — the source defines no others. -/
structure SimulationResult where
  trials : ℤ
  alpha : ℝ
  rejection_rate : ℝ

/-- The attribute names of the `SimulationResult` dataclass, in source
order. -/
def SimulationResult.fieldNames : List String := ["trials", "alpha", "rejection_rate"]

/-- Python attribute access on a `SimulationResult`: defined attributes
read the corresponding field, anything else raises `AttributeError`. -/
noncomputable def SimulationResult.attr (r : SimulationResult) (name : String) :
    Except String ℝ :=
  if name = "trials" then .ok (r.trials : ℝ)
  else if name = "alpha" then .ok r.alpha
  else if name = "rejection_rate" then .ok r.rejection_rate
  else .error "AttributeError"

/-- The trial loop of `_run_trials`: thread the random-source state `g`
through `n` calls of the per-trial callable, counting p-values strictly
below `alpha`.  `G` is the (abstract) state of `random.Random`. -/
noncomputable def trialLoop {G : Type} (p_value_fn : G → ℝ × G) (alpha : ℝ) :
    ℕ → G → ℕ × G
  | 0, g => (0, g)
  | n + 1, g =>
      let p := (p_value_fn g).1
      let rest := trialLoop p_value_fn alpha n (p_value_fn g).2
      ((if p < alpha then 1 else 0) + rest.1, rest.2)

/-- The sequence of p-values produced by iterating the per-trial callable
from state `g` (draw `i` of the run). -/
noncomputable def pSeq {G : Type} (p_value_fn : G → ℝ × G) (g : G) : ℕ → ℝ
  | 0 => (p_value_fn g).1
  | n + 1 => pSeq p_value_fn ((p_value_fn g).2) n

/-- `_run_trials` from `simulate.py`: seed a fresh random source, run the
trial loop (`range(trials)` is empty for `trials ≤ 0`), and return
`rejections / trials`.  The Python division raises `ZeroDivisionError` when
`trials = 0`; there is no other validation in the source.  `randomInit`
abstracts `random.Random(seed)`. -/
noncomputable def _run_trials {G : Type} (randomInit : ℤ → G) (p_value_fn : G → ℝ × G)
    (trials : ℤ) (alpha : ℝ) (seed : ℤ) : Except String SimulationResult :=
  let rng := randomInit seed
  let rejections := (trialLoop p_value_fn alpha trials.toNat rng).1
  if trials = 0 then .error "ZeroDivisionError: division by zero"
  else .ok ⟨trials, alpha, (rejections : ℝ) / (trials : ℝ)⟩

/-- Rejection count of a p-value sequence: how many of the first `n`
p-values are strictly below `alpha`. -/
noncomputable def countRejections (pvals : ℕ → ℝ) (alpha : ℝ) (n : ℕ) : ℕ :=
  ((List.range n).filter (fun i => pvals i < alpha)).length

/-! ## Embedding of `src/simlab/sweep.py` -/

/-- One CSV row assembled by `run_sweep_to_csv` (keys in source insertion
order; the two ratio-metric columns are named `type1_ratio` / `power_ratio`
in the source CSV). -/
structure SweepRow where
  n_per_group : ℤ
  alpha : ℝ
  trials : ℤ
  type1_mean : ℝ
  power_mean : ℝ
  type1_conversion : ℝ
  power_conversion : ℝ
  type1_ratio_rate : ℝ
  power_ratio_rate : ℝ

/-- The key list of every sweep row, in the source insertion order used by
`rows[0].keys()`. -/
def sweepFieldnames : List String :=
  ["n_per_group", "alpha", "trials", "type1_mean", "power_mean",
   "type1_conversion", "power_conversion", "type1_ratio", "power_ratio"]

/-- `run_sweep_to_csv` from `sweep.py`.  For each `(i, n)` in
`enumerate(sample_sizes)` it runs the six `simulate_*` entry points — each
is `_run_trials` on a per-family per-trial kernel (the kernels compose the
data generators with the external `abtk` oracles, so they are abstract
parameters here) with seeds `seed_base + 10000 + i`, …,
`seed_base + 60000 + i` — and assembles one row.  Afterwards the source
evaluates `rows[0].keys()` to derive the CSV field names, which raises
`IndexError` when `rows` is empty; only then is the file opened and
written.  The returned pair `(fieldnames, rows)` models the written file. -/
noncomputable def run_sweep_to_csv {G : Type} (randomInit : ℤ → G)
    (meanT1 meanPw convT1 convPw ratT1 ratPw : ℤ → G → ℝ × G)
    (trials : ℤ) (alpha : ℝ) (sample_sizes : List ℤ) (seed_base : ℤ) :
    Except String (List String × List SweepRow) := do
  let rows ← sample_sizes.enum.mapM (fun p => do
    let i : ℤ := (p.1 : ℤ)
    let n := p.2
    let mt1 ← _run_trials randomInit (meanT1 n) trials alpha (seed_base + 10000 + i)
    let mpw ← _run_trials randomInit (meanPw n) trials alpha (seed_base + 20000 + i)
    let ct1 ← _run_trials randomInit (convT1 n) trials alpha (seed_base + 30000 + i)
    let cpw ← _run_trials randomInit (convPw n) trials alpha (seed_base + 40000 + i)
    let rt1 ← _run_trials randomInit (ratT1 n) trials alpha (seed_base + 50000 + i)
    let rpw ← _run_trials randomInit (ratPw n) trials alpha (seed_base + 60000 + i)
    pure (⟨n, alpha, trials, mt1.rejection_rate, mpw.rejection_rate, ct1.rejection_rate,
      cpw.rejection_rate, rt1.rejection_rate, rpw.rejection_rate⟩ : SweepRow))
  match rows with
  | [] => .error "IndexError: list index out of range"
  | _ :: _ => .ok (sweepFieldnames, rows)

/-! ## Bridge lemmas: the `Except` computations succeed on valid input -/

/-- `Except` bind on a success reduces to the continuation. -/
lemma ok_bind {α β : Type} (a : α) (f : α → Except String β) :
    (Except.ok (ε := String) a >>= f) = f a := rfl

/-- On `(0,1)` the code path of `_normal_inverse_cdf` raises no domain
error and computes the total rational approximation. -/
lemma normal_inverse_cdf_ok (p : ℝ) (h0 : 0 < p) (h1 : p < 1) :
    normal_inverse_cdf p = .ok (normalInvCdfFun p) := by
  have hlogp : Real.log p ≤ 0 := Real.log_nonpos h0.le h1.le
  have hlog1p : Real.log (1 - p) ≤ 0 := Real.log_nonpos (by linarith) (by linarith)
  unfold normal_inverse_cdf normalInvCdfFun
  rw [if_neg (not_not.mpr ⟨h0, h1⟩)]
  by_cases hl : p < plow
  · rw [if_pos hl, if_pos hl]
    unfold pyLog
    rw [if_neg (not_le.mpr h0), ok_bind]
    unfold pySqrt
    rw [if_neg (not_lt.mpr (by linarith : (0:ℝ) ≤ -2 * Real.log p)), ok_bind]
  · rw [if_neg hl, if_neg hl]
    by_cases hh : 1 - plow < p
    · rw [if_pos hh, if_pos hh]
      unfold pyLog
      rw [if_neg (not_le.mpr (by linarith : (0:ℝ) < 1 - p)), ok_bind]
      unfold pySqrt
      rw [if_neg (not_lt.mpr (by linarith : (0:ℝ) ≤ -2 * Real.log (1 - p))), ok_bind]
    · rw [if_neg hh, if_neg hh]

/-- On valid input `wilson_interval` raises nothing and returns exactly the
Wilson formula `wilsonSpec`. -/
lemma wilson_interval_eq_ok (s t : ℤ) (c : ℝ) (ht : 0 < t) (hs0 : 0 ≤ s)
    (hst : s ≤ t) (hc0 : 0 < c) (hc1 : c < 1) :
    wilson_interval s t c = .ok (wilsonSpec s t c) := by
  have hn : (0:ℝ) < (t : ℝ) := by exact_mod_cast ht
  have hphat0 : 0 ≤ (s : ℝ) / (t : ℝ) :=
    div_nonneg (by exact_mod_cast hs0) hn.le
  have hphat1 : (s : ℝ) / (t : ℝ) ≤ 1 :=
    (div_le_one hn).mpr (by exact_mod_cast hst)
  unfold wilson_interval
  rw [if_neg (not_le.mpr ht),
    if_neg (by push_neg; exact ⟨hs0, hst⟩),
    if_neg (by push_neg; exact ⟨hc0, hc1⟩),
    normal_inverse_cdf_ok _ (by linarith) (by linarith), ok_bind]
  set z := normalInvCdfFun (0.5 + c / 2) with hz
  have harg : 0 ≤ (s : ℝ) / (t : ℝ) * (1 - (s : ℝ) / (t : ℝ)) / (t : ℝ)
      + z ^ 2 / (4 * (t : ℝ) * (t : ℝ)) := by
    have h1 : 0 ≤ (s : ℝ) / (t : ℝ) * (1 - (s : ℝ) / (t : ℝ)) / (t : ℝ) :=
      div_nonneg (mul_nonneg hphat0 (by linarith)) hn.le
    have h2 : 0 ≤ z ^ 2 / (4 * (t : ℝ) * (t : ℝ)) :=
      div_nonneg (sq_nonneg z) (by positivity)
    linarith
  unfold pySqrt
  simp only [if_neg (not_lt.mpr harg), ok_bind, wilsonSpec]
  rw [← hz]
  have harg2 : (4 * (t : ℝ) * (t : ℝ)) = 4 * (t : ℝ) ^ 2 := by ring
  rw [harg2]

/-! ## Sign of the inverse-CDF approximation on `[1/2, 1)`

For `p ∈ [1/2, 1)` the central branch has `q = p − 0.5 ∈ [0, 0.47575]`,
hence `r = q² ∈ [0, 3621409/16000000]`.  On that interval both central
polynomials are nonnegative; the certificates below write
`R⁵ · P(r)` in the Bernstein basis `r^k (R−r)^(5−k)` with nonnegative
rational coefficients (`R = 3621409/16000000`). -/

lemma central_num_nonneg (r : ℝ) (h0 : 0 ≤ r) (h1 : r ≤ 3621409 / 16000000) :
    0 ≤ central_num r := by
  have hs : 0 ≤ 3621409 / 16000000 - r := by linarith
  have p0 : 0 ≤ (3621409 / 16000000 - r) ^ 5 := pow_nonneg hs 5
  have p1 : 0 ≤ r * (3621409 / 16000000 - r) ^ 4 := mul_nonneg h0 (pow_nonneg hs 4)
  have p2 : 0 ≤ r ^ 2 * (3621409 / 16000000 - r) ^ 3 :=
    mul_nonneg (pow_nonneg h0 2) (pow_nonneg hs 3)
  have p3 : 0 ≤ r ^ 3 * (3621409 / 16000000 - r) ^ 2 :=
    mul_nonneg (pow_nonneg h0 3) (pow_nonneg hs 2)
  have p4 : 0 ≤ r ^ 4 * (3621409 / 16000000 - r) := mul_nonneg (pow_nonneg h0 4) hs
  have p5 : 0 ≤ r ^ 5 := pow_nonneg h0 5
  have key : (3621409 / 16000000 : ℝ) ^ 5 * central_num r
      = (2506628277459239 / 1000000000000000) * (3621409 / 16000000 - r) ^ 5
      + (2237012162420279986289 / 400000000000000000000)
          * (r * (3621409 / 16000000 - r) ^ 4)
      + (1124289753312759103135547589 / 256000000000000000000000000)
          * (r ^ 2 * (3621409 / 16000000 - r) ^ 3)
      + (60906080685798210162618435679620777 / 40960000000000000000000000000000000)
          * (r ^ 3 * (3621409 / 16000000 - r) ^ 2)
      + (28244812065993528991075587285210072016401 /
          131072000000000000000000000000000000000000)
          * (r ^ 4 * (3621409 / 16000000 - r))
      + (35391650323273133944990817871883381338807958143 /
          3276800000000000000000000000000000000000000000000) * r ^ 5 := by
    unfold central_num
    ring
  linarith [key, p0, p1, p2, p3, p4, p5]

lemma central_den_nonneg (r : ℝ) (h0 : 0 ≤ r) (h1 : r ≤ 3621409 / 16000000) :
    0 ≤ central_den r := by
  have hs : 0 ≤ 3621409 / 16000000 - r := by linarith
  have p0 : 0 ≤ (3621409 / 16000000 - r) ^ 5 := pow_nonneg hs 5
  have p1 : 0 ≤ r * (3621409 / 16000000 - r) ^ 4 := mul_nonneg h0 (pow_nonneg hs 4)
  have p2 : 0 ≤ r ^ 2 * (3621409 / 16000000 - r) ^ 3 :=
    mul_nonneg (pow_nonneg h0 2) (pow_nonneg hs 3)
  have p3 : 0 ≤ r ^ 3 * (3621409 / 16000000 - r) ^ 2 :=
    mul_nonneg (pow_nonneg h0 3) (pow_nonneg hs 2)
  have p4 : 0 ≤ r ^ 4 * (3621409 / 16000000 - r) := mul_nonneg (pow_nonneg h0 4) hs
  have p5 : 0 ≤ r ^ 5 := pow_nonneg h0 5
  have key : (3621409 / 16000000 : ℝ) ^ 5 * central_den r
      = 1 * (3621409 / 16000000 - r) ^ 5
      + (797630507456141940513 / 400000000000000000000)
          * (r * (3621409 / 16000000 - r) ^ 4)
      + (8950169851982736578606216033 / 6400000000000000000000000000)
          * (r ^ 2 * (3621409 / 16000000 - r) ^ 3)
      + (8716214298451695033356168105266743 / 20480000000000000000000000000000000)
          * (r ^ 3 * (3621409 / 16000000 - r) ^ 2)
      + (36812860753416806024868653331956158085049 /
          655360000000000000000000000000000000000000)
          * (r ^ 4 * (3621409 / 16000000 - r))
      + (136546660353858578832619715197102582369915693053 /
          52428800000000000000000000000000000000000000000000) * r ^ 5 := by
    unfold central_den
    ring
  linarith [key, p0, p1, p2, p3, p4, p5]

/-- The tail numerator polynomial is nonpositive for `q ≥ 2` (the tail
branches only ever evaluate it there, see `normalInvCdfFun_nonneg`). -/
lemma tail_num_nonpos (q : ℝ) (hq : 2 ≤ q) : tail_num q ≤ 0 := by
  have h0 : (0:ℝ) < q := by linarith
  have h2 : (4:ℝ) ≤ q ^ 2 := by nlinarith
  have h3 : 4 * q ≤ q ^ 3 := by nlinarith
  have h4 : (0:ℝ) ≤ q ^ 4 := by positivity
  have h5 : (0:ℝ) ≤ q ^ 5 := by positivity
  unfold tail_num
  nlinarith [h0, h2, h3, h4, h5]

/-- The tail denominator polynomial is positive for `q ≥ 0`. -/
lemma tail_den_pos (q : ℝ) (hq : 0 ≤ q) : 0 < tail_den q := by
  have h2 : (0:ℝ) ≤ q ^ 2 := sq_nonneg q
  have h3 : (0:ℝ) ≤ q ^ 3 := pow_nonneg hq 3
  have h4 : (0:ℝ) ≤ q ^ 4 := pow_nonneg hq 4
  unfold tail_den
  nlinarith [hq, h2, h3, h4]

/-- The rational approximation of the inverse normal CDF is nonnegative on
`[1/2, 1)`: the critical value `z` used by `wilson_interval` is never
negative. -/
lemma normalInvCdfFun_nonneg (p : ℝ) (hp : 1 / 2 ≤ p) (hp1 : p < 1) :
    0 ≤ normalInvCdfFun p := by
  unfold normalInvCdfFun
  have hpl : ¬ p < plow := by
    unfold plow
    intro h
    norm_num at h
    linarith
  rw [if_neg hpl]
  by_cases hh : 1 - plow < p
  · rw [if_pos hh]
    have h1p : 0 < 1 - p := by linarith
    have hppos : (0:ℝ) < 1 - p := h1p
    have hplow : (1:ℝ) - p < plow := by unfold plow at hh ⊢; linarith
    have hexp : plow < Real.exp (-2) := by
      unfold plow
      rw [Real.exp_neg, show ((2:ℝ) = 1 + 1) by norm_num, Real.exp_add]
      have he : Real.exp 1 < 2.7182818286 := Real.exp_one_lt_d9
      have hepos : (0:ℝ) < Real.exp 1 := Real.exp_pos 1
      have hprod : Real.exp 1 * Real.exp 1 < 7.389057 := by nlinarith
      have hcancel : Real.exp 1 * Real.exp 1 * (Real.exp 1 * Real.exp 1)⁻¹ = 1 :=
        mul_inv_cancel₀ (by positivity)
      nlinarith [hcancel, hprod, hepos]
    have hlog : Real.log (1 - p) < -2 := by
      have := Real.log_lt_log h1p (lt_trans hplow hexp)
      rwa [Real.log_exp] at this
    have hq2 : 2 ≤ Real.sqrt (-2 * Real.log (1 - p)) := by
      have h4 : (4:ℝ) ≤ -2 * Real.log (1 - p) := by linarith
      nlinarith [Real.sq_sqrt (by linarith : (0:ℝ) ≤ -2 * Real.log (1 - p)),
        Real.sqrt_nonneg (-2 * Real.log (1 - p))]
    have hnum := tail_num_nonpos _ hq2
    have hden := tail_den_pos _ (by linarith : (0:ℝ) ≤ Real.sqrt (-2 * Real.log (1 - p)))
    have hdiv : tail_num (Real.sqrt (-2 * Real.log (1 - p)))
        / tail_den (Real.sqrt (-2 * Real.log (1 - p))) ≤ 0 :=
      div_nonpos_of_nonpos_of_nonneg hnum hden.le
    linarith
  · rw [if_neg hh]
    have hq0 : (0:ℝ) ≤ p - 0.5 := by norm_num; linarith
    have hub : p - 0.5 ≤ 0.47575 := by
      unfold plow at hh
      push_neg at hh
      norm_num at hh ⊢
      linarith
    have hr0 : (0:ℝ) ≤ (p - 0.5) * (p - 0.5) := mul_self_nonneg _
    have hrR : (p - 0.5) * (p - 0.5) ≤ 3621409 / 16000000 := by nlinarith [hq0, hub]
    have hA := central_num_nonneg _ hr0 hrR
    have hB := central_den_nonneg _ hr0 hrR
    exact div_nonneg (mul_nonneg hA hq0) hB

/-! ## Order properties of the Wilson formula -/

/-- Core estimate: for `z ≥ 0`, `n > 0` and `p̂ ∈ [0,1]` the clamped Wilson
interval contains the point estimate. -/
lemma wilson_core_bounds (z n phat : ℝ) (hn : 0 < n) (hz : 0 ≤ z)
    (h0 : 0 ≤ phat) (h1 : phat ≤ 1) :
    max 0 ((phat + z ^ 2 / (2 * n)) / (1 + z ^ 2 / n)
        - z / (1 + z ^ 2 / n) * Real.sqrt (phat * (1 - phat) / n + z ^ 2 / (4 * n ^ 2)))
      ≤ phat
    ∧ phat ≤ min 1 ((phat + z ^ 2 / (2 * n)) / (1 + z ^ 2 / n)
        + z / (1 + z ^ 2 / n) * Real.sqrt (phat * (1 - phat) / n + z ^ 2 / (4 * n ^ 2))) := by
  have hdpos : (0:ℝ) < 1 + z ^ 2 / n := by positivity
  have hsqrt_ge : z / (2 * n) ≤ Real.sqrt (phat * (1 - phat) / n + z ^ 2 / (4 * n ^ 2)) := by
    have hterm : 0 ≤ phat * (1 - phat) / n :=
      div_nonneg (mul_nonneg h0 (by linarith)) hn.le
    have h1' : Real.sqrt (z ^ 2 / (4 * n ^ 2))
        ≤ Real.sqrt (phat * (1 - phat) / n + z ^ 2 / (4 * n ^ 2)) :=
      Real.sqrt_le_sqrt (by linarith)
    have h2' : Real.sqrt (z ^ 2 / (4 * n ^ 2)) = z / (2 * n) := by
      rw [show z ^ 2 / (4 * n ^ 2) = (z / (2 * n)) ^ 2 by ring]
      exact Real.sqrt_sq (by positivity)
    linarith
  have hHlb : z ^ 2 / (2 * n * (1 + z ^ 2 / n))
      ≤ z / (1 + z ^ 2 / n) * Real.sqrt (phat * (1 - phat) / n + z ^ 2 / (4 * n ^ 2)) := by
    have hmul := mul_le_mul_of_nonneg_left hsqrt_ge
      (by positivity : (0:ℝ) ≤ z / (1 + z ^ 2 / n))
    calc z ^ 2 / (2 * n * (1 + z ^ 2 / n))
        = z / (1 + z ^ 2 / n) * (z / (2 * n)) := by
          field_simp
          ring
      _ ≤ _ := hmul
  have hcenter : (phat + z ^ 2 / (2 * n)) / (1 + z ^ 2 / n) - phat
      = z ^ 2 * (1 - 2 * phat) / (2 * n * (1 + z ^ 2 / n)) := by
    field_simp
    ring
  have hub : z ^ 2 * (1 - 2 * phat) / (2 * n * (1 + z ^ 2 / n))
      ≤ z ^ 2 / (2 * n * (1 + z ^ 2 / n)) := by
    apply div_le_div_of_nonneg_right ?_ (by positivity)
    nlinarith [sq_nonneg z]
  have hlb : -(z ^ 2 / (2 * n * (1 + z ^ 2 / n)))
      ≤ z ^ 2 * (1 - 2 * phat) / (2 * n * (1 + z ^ 2 / n))  := by
    rw [← neg_div]
    apply div_le_div_of_nonneg_right ?_ (by positivity)
    nlinarith [sq_nonneg z]
  constructor
  · exact max_le h0 (by linarith)
  · exact le_min h1 (by linarith)

/-- Clamping identity: `max 0 (1 − x) = 1 − min 1 x`. -/
lemma max_zero_one_sub (x : ℝ) : max 0 (1 - x) = 1 - min 1 x := by
  rcases le_total x 1 with h | h
  · rw [min_eq_right h, max_eq_right (by linarith : (0:ℝ) ≤ 1 - x)]
  · rw [min_eq_left h, max_eq_left (by linarith : 1 - x ≤ (0:ℝ))]
    norm_num

/-- Clamping identity: `min 1 (1 − x) = 1 − max 0 x`. -/
lemma min_one_one_sub (x : ℝ) : min 1 (1 - x) = 1 - max 0 x := by
  rcases le_total 0 x with h | h
  · rw [max_eq_right h, min_eq_right (by linarith : 1 - x ≤ (1:ℝ))]
  · rw [max_eq_left h, min_eq_left (by linarith : (1:ℝ) ≤ 1 - x)]
    norm_num

/-- Bounds of `wilsonSpec` on valid input. -/
lemma wilsonSpec_bounds (s t : ℤ) (c : ℝ) (ht : 0 < t) (hs0 : 0 ≤ s)
    (hst : s ≤ t) (hc0 : 0 < c) (hc1 : c < 1) :
    0 ≤ (wilsonSpec s t c).low ∧ (wilsonSpec s t c).low ≤ (wilsonSpec s t c).estimate
    ∧ (wilsonSpec s t c).estimate ≤ (wilsonSpec s t c).high
    ∧ (wilsonSpec s t c).high ≤ 1 := by
  have hn : (0:ℝ) < (t : ℝ) := by exact_mod_cast ht
  have hz : 0 ≤ normalInvCdfFun (0.5 + c / 2) :=
    normalInvCdfFun_nonneg _ (by norm_num; linarith) (by norm_num; linarith)
  have hph0 : 0 ≤ (s : ℝ) / (t : ℝ) := div_nonneg (by exact_mod_cast hs0) hn.le
  have hph1 : (s : ℝ) / (t : ℝ) ≤ 1 := (div_le_one hn).mpr (by exact_mod_cast hst)
  obtain ⟨hA, hB⟩ := wilson_core_bounds (normalInvCdfFun (0.5 + c / 2)) (t : ℝ)
    ((s : ℝ) / (t : ℝ)) hn hz hph0 hph1
  exact ⟨le_max_left _ _, hA, hB, min_le_left _ _⟩

/-- Complement symmetry of `wilsonSpec`: replacing `successes` by
`trials − successes` mirrors the interval around `1/2`. -/
lemma wilsonSpec_complement (s t : ℤ) (c : ℝ) (ht : 0 < t) :
    (wilsonSpec (t - s) t c).estimate = 1 - (wilsonSpec s t c).estimate
    ∧ (wilsonSpec (t - s) t c).low = 1 - (wilsonSpec s t c).high
    ∧ (wilsonSpec (t - s) t c).high = 1 - (wilsonSpec s t c).low := by
  have hn : (0:ℝ) < (t : ℝ) := by exact_mod_cast ht
  have hd : (0:ℝ) < 1 + (normalInvCdfFun (0.5 + c / 2)) ^ 2 / (t : ℝ) := by positivity
  set z := normalInvCdfFun (0.5 + c / 2) with hzdef
  have hphat : ((t - s : ℤ) : ℝ) / (t : ℝ) = 1 - (s : ℝ) / (t : ℝ) := by
    push_cast
    field_simp
  have hcenter : (((t - s : ℤ) : ℝ) / (t : ℝ) + z ^ 2 / (2 * (t : ℝ))) / (1 + z ^ 2 / (t : ℝ))
      = 1 - ((s : ℝ) / (t : ℝ) + z ^ 2 / (2 * (t : ℝ))) / (1 + z ^ 2 / (t : ℝ)) := by
    rw [hphat]
    field_simp
    ring
  have hargeq : ((t - s : ℤ) : ℝ) / (t : ℝ) * (1 - ((t - s : ℤ) : ℝ) / (t : ℝ)) / (t : ℝ)
        + z ^ 2 / (4 * (t : ℝ) ^ 2)
      = (s : ℝ) / (t : ℝ) * (1 - (s : ℝ) / (t : ℝ)) / (t : ℝ) + z ^ 2 / (4 * (t : ℝ) ^ 2) := by
    rw [hphat]
    ring
  refine ⟨hphat, ?_, ?_⟩
  · show max 0 (_ - _) = 1 - min 1 (_ + _)
    rw [hcenter, hargeq, show ∀ a b : ℝ, 1 - a - b = 1 - (a + b) from fun a b => by ring,
      max_zero_one_sub]
  · show min 1 (_ + _) = 1 - max 0 (_ - _)
    rw [hcenter, hargeq, show ∀ a b : ℝ, 1 - a + b = 1 - (a - b) from fun a b => by ring,
      min_one_one_sub]

/-- The critical value at confidence 0.95 is strictly positive (concrete
rational evaluation of the central branch at `p = 0.975 = 39/40`). -/
lemma zBoundary_pos : 0 < normalInvCdfFun (39 / 40) := by
  unfold normalInvCdfFun plow
  rw [if_neg (by norm_num), if_neg (by norm_num)]
  have hnum : 0 < central_num ((39 / 40 - 0.5) * ((39:ℝ) / 40 - 0.5)) := by
    unfold central_num
    norm_num
  have hden : 0 < central_den ((39 / 40 - 0.5) * ((39:ℝ) / 40 - 0.5)) := by
    unfold central_den
    norm_num
  exact div_pos (mul_pos hnum (by norm_num)) hden

/-- Boundary behaviour of the Wilson formula at `successes = 0`,
`trials = 100`, `confidence = 0.95`. -/
lemma wilsonSpec_boundary_zero :
    (wilsonSpec 0 100 0.95).low = 0 ∧ 0 < (wilsonSpec 0 100 0.95).high := by
  have hzpos : 0 < normalInvCdfFun (39 / 40) := zBoundary_pos
  have hd : (0:ℝ) < 1 + normalInvCdfFun (39 / 40) ^ 2 / 100 := by positivity
  have hs1 : Real.sqrt (normalInvCdfFun (39 / 40) ^ 2) = normalInvCdfFun (39 / 40) :=
    Real.sqrt_sq hzpos.le
  have hs2 : Real.sqrt (40000 : ℝ) = 200 := by
    rw [show (40000:ℝ) = 200 ^ 2 by norm_num]
    exact Real.sqrt_sq (by norm_num)
  constructor
  · show max 0 (_ - _) = 0
    norm_num
    rw [hs1, hs2]
    apply le_of_eq
    field_simp
    ring
  · show 0 < min 1 (_ + _)
    norm_num
    rw [hs1, hs2]
    have h1 : 0 < normalInvCdfFun (39 / 40) ^ 2 / 200 / (1 + normalInvCdfFun (39 / 40) ^ 2 / 100) :=
      div_pos (div_pos (pow_pos hzpos 2) (by norm_num)) hd
    have h2 : 0 < normalInvCdfFun (39 / 40) / (1 + normalInvCdfFun (39 / 40) ^ 2 / 100)
        * (normalInvCdfFun (39 / 40) / 200) :=
      mul_pos (div_pos hzpos hd) (div_pos hzpos (by norm_num))
    linarith

/-- Boundary behaviour of the Wilson formula at `successes = 100`,
`trials = 100`, `confidence = 0.95`. -/
lemma wilsonSpec_boundary_full :
    (wilsonSpec 100 100 0.95).high = 1 ∧ (wilsonSpec 100 100 0.95).low < 1 := by
  have hzpos : 0 < normalInvCdfFun (39 / 40) := zBoundary_pos
  have hd : (0:ℝ) < 1 + normalInvCdfFun (39 / 40) ^ 2 / 100 := by positivity
  have hs1 : Real.sqrt (normalInvCdfFun (39 / 40) ^ 2) = normalInvCdfFun (39 / 40) :=
    Real.sqrt_sq hzpos.le
  have hs2 : Real.sqrt (40000 : ℝ) = 200 := by
    rw [show (40000:ℝ) = 200 ^ 2 by norm_num]
    exact Real.sqrt_sq (by norm_num)
  constructor
  · show min 1 (_ + _) = 1
    norm_num
    rw [hs1, hs2]
    apply le_of_eq
    field_simp
    ring
  · show max 0 (_ - _) < 1
    norm_num
    rw [hs1, hs2]
    have heq : (1 + normalInvCdfFun (39 / 40) ^ 2 / 200) / (1 + normalInvCdfFun (39 / 40) ^ 2 / 100)
        - normalInvCdfFun (39 / 40) / (1 + normalInvCdfFun (39 / 40) ^ 2 / 100)
          * (normalInvCdfFun (39 / 40) / 200)
        = 1 / (1 + normalInvCdfFun (39 / 40) ^ 2 / 100) := by
      field_simp
      ring
    rw [heq]
    rw [div_lt_one hd]
    nlinarith [pow_pos hzpos 2]

/-! ## Trial-runner lemmas -/

/-- Unfolding of the p-value sequence one step. -/
lemma pSeq_succ {G : Type} (pf : G → ℝ × G) (g : G) (n : ℕ) :
    pSeq pf g (n + 1) = pSeq pf (pf g).2 n := rfl

/-- The trial loop counts exactly the p-values of the run that are
strictly below `alpha`. -/
lemma trialLoop_count {G : Type} (pf : G → ℝ × G) (α : ℝ) (n : ℕ) :
    ∀ g : G, (trialLoop pf α n g).1 = countRejections (pSeq pf g) α n := by
  induction n with
  | zero =>
      intro g
      simp [trialLoop, countRejections]
  | succ k ih =>
      intro g
      have hz : pSeq pf g 0 = (pf g).1 := rfl
      show (if (pf g).1 < α then 1 else 0) + (trialLoop pf α k (pf g).2).1 = _
      rw [ih (pf g).2]
      unfold countRejections
      rw [List.range_succ_eq_map, List.filter_cons, List.filter_map]
      have hcomp : ((fun i => decide (pSeq pf g i < α)) ∘ Nat.succ)
      = (fun i => decide (pSeq pf (pf g).2 i < α)) := rfl
      rw [hcomp]
      by_cases hp : (pf g).1 < α
      · simp [hp, hz, Nat.add_comm]
      · simp [hp, hz]

/-! ## Claim theorems -/

/-- C1: for every integer `trials > 0`, every `successes` in `[0, trials]`
and every `confidence` in the open interval `(0,1)`, `wilson_interval`
returns a `ProportionInterval` satisfying
`0 ≤ low ≤ estimate ≤ high ≤ 1`. -/
theorem wilson_interval_bounds (s t : ℤ) (c : ℝ) (ht : 0 < t) (hs0 : 0 ≤ s)
    (hst : s ≤ t) (hc0 : 0 < c) (hc1 : c < 1) :
    ∃ iv : ProportionInterval, wilson_interval s t c = .ok iv
      ∧ 0 ≤ iv.low ∧ iv.low ≤ iv.estimate ∧ iv.estimate ≤ iv.high ∧ iv.high ≤ 1 := by
  obtain ⟨h0, h1, h2, h3⟩ := wilsonSpec_bounds s t c ht hs0 hst hc0 hc1
  exact ⟨wilsonSpec s t c, wilson_interval_eq_ok s t c ht hs0 hst hc0 hc1, h0, h1, h2, h3⟩

/-- Witness for C1 at `successes = 30`, `trials = 100`,
`confidence = 1/2`. -/
theorem wilson_interval_bounds_witness :
    ∃ iv : ProportionInterval, wilson_interval 30 100 (1/2) = .ok iv
      ∧ 0 ≤ iv.low ∧ iv.low ≤ iv.estimate ∧ iv.estimate ≤ iv.high ∧ iv.high ≤ 1 :=
  wilson_interval_bounds 30 100 (1/2) (by norm_num) (by norm_num) (by norm_num)
    (by norm_num) (by norm_num)

/-- C2: on every valid input `wilson_interval` returns exactly the Wilson
score interval of the spec (`wilsonSpec`): `z` the inverse normal CDF at
`0.5 + confidence/2`, `estimate = p̂`, `low = max(0, center − half_width)`,
`high = min(1, center + half_width)` with the spec formulas for `center`
and `half_width`. -/
theorem wilson_interval_matches_spec (s t : ℤ) (c : ℝ) (ht : 0 < t) (hs0 : 0 ≤ s)
    (hst : s ≤ t) (hc0 : 0 < c) (hc1 : c < 1) :
    wilson_interval s t c = .ok (wilsonSpec s t c) :=
  wilson_interval_eq_ok s t c ht hs0 hst hc0 hc1

/-- Witness for C2 at `successes = 1`, `trials = 2`, `confidence = 1/2`. -/
theorem wilson_interval_matches_spec_witness :
    wilson_interval 1 2 (1/2) = .ok (wilsonSpec 1 2 (1/2)) :=
  wilson_interval_matches_spec 1 2 (1/2) (by norm_num) (by norm_num) (by norm_num)
    (by norm_num) (by norm_num)

/-- C3 (code bug): `SimulationResult` has no `successes` attribute — its
fields are exactly `trials`, `alpha`, `rejection_rate` — so the read
`t1.successes` performed by `print_report` raises `AttributeError` on every
Trial Runner result. -/
theorem simulationResult_no_successes_field :
    "successes" ∉ SimulationResult.fieldNames
    ∧ ∀ r : SimulationResult, r.attr "successes" = .error "AttributeError" := by
  constructor
  · decide
  · intro r
    unfold SimulationResult.attr
    rw [if_neg (by decide), if_neg (by decide), if_neg (by decide)]

/-- C4 (amended): `_run_trials` performs no validation of `trials`.  For
`trials = 0` it fails with a `ZeroDivisionError` (a division-by-zero error,
not an invalid-argument error) when computing `rejections / trials`; for
`trials < 0` it runs zero trials and returns a `SimulationResult` with
`rejection_rate = 0` without raising.  This holds for every per-trial
callable, alpha, and seed. -/
theorem run_trials_nonpositive_behaviour {G : Type} (randomInit : ℤ → G)
    (pf : G → ℝ × G) (t : ℤ) (α : ℝ) (seed : ℤ) (ht : t ≤ 0) :
    (t = 0 → _run_trials randomInit pf t α seed
        = .error "ZeroDivisionError: division by zero")
    ∧ (t < 0 → _run_trials randomInit pf t α seed = .ok ⟨t, α, 0⟩) := by
  constructor
  · intro h0
    unfold _run_trials
    rw [if_pos h0]
  · intro hneg
    unfold _run_trials
    rw [if_neg (by omega : ¬ t = 0), Int.toNat_eq_zero.mpr ht]
    norm_num [trialLoop]

/-- Witness for C4: concrete nonpositive trial counts. -/
theorem run_trials_nonpositive_behaviour_witness :
    _run_trials (G := Unit) (fun _ => ()) (fun _ => ((1:ℝ)/2, ())) 0 (1/20) 7
      = .error "ZeroDivisionError: division by zero"
    ∧ _run_trials (G := Unit) (fun _ => ()) (fun _ => ((1:ℝ)/2, ())) (-3) (1/20) 7
      = .ok (⟨-3, 1/20, 0⟩ : SimulationResult) :=
  ⟨(run_trials_nonpositive_behaviour (fun _ => ()) (fun _ => ((1:ℝ)/2, ())) 0 (1/20) 7
      le_rfl).1 rfl,
   (run_trials_nonpositive_behaviour (fun _ => ()) (fun _ => ((1:ℝ)/2, ())) (-3) (1/20) 7
      (by norm_num)).2 (by norm_num)⟩

/-- Counterexample to C4 as stated: at `trials = −1 ≤ 0` the Trial Runner
does not fail with any error — it returns a `SimulationResult`. -/
theorem run_trials_negative_returns_result :
    _run_trials (G := Unit) (fun _ => ()) (fun _ => ((1:ℝ)/2, ())) (-1) (1/20) 0
      = .ok (⟨-1, 1/20, 0⟩ : SimulationResult) := by
  unfold _run_trials
  rw [if_neg (by omega : ¬ (-1 : ℤ) = 0)]
  norm_num [trialLoop, Int.toNat]

/-- C5 (code bug): sweeping an empty sample-size sequence reaches
`rows[0]` with an empty row list and raises `IndexError` (not an
invalid-argument error); no file content is produced. -/
theorem run_sweep_empty_index_error {G : Type} (randomInit : ℤ → G)
    (meanT1 meanPw convT1 convPw ratT1 ratPw : ℤ → G → ℝ × G)
    (trials : ℤ) (alpha : ℝ) (seed_base : ℤ) :
    run_sweep_to_csv randomInit meanT1 meanPw convT1 convPw ratT1 ratPw
      trials alpha [] seed_base = .error "IndexError: list index out of range" := rfl

/-- C6: the three `wilson_interval` preconditions each fail with their own
distinct invalid-argument error, in source order, and on any input
satisfying all three preconditions no error is raised. -/
theorem wilson_interval_validation (s t : ℤ) (c : ℝ) :
    (t ≤ 0 → wilson_interval s t c = .error "trials must be positive.")
    ∧ (0 < t → (s < 0 ∨ t < s) →
        wilson_interval s t c = .error "successes must be between 0 and trials.")
    ∧ (0 < t → 0 ≤ s → s ≤ t → (c ≤ 0 ∨ 1 ≤ c) →
        wilson_interval s t c = .error "confidence must be between 0 and 1 (exclusive).")
    ∧ (0 < t → 0 ≤ s → s ≤ t → 0 < c → c < 1 →
        ∃ iv, wilson_interval s t c = .ok iv) := by
  refine ⟨?_, ?_, ?_, ?_⟩
  · intro h
    unfold wilson_interval
    rw [if_pos h]
  · intro ht hs
    unfold wilson_interval
    rw [if_neg (not_le.mpr ht), if_pos hs]
  · intro ht hs0 hst hc
    unfold wilson_interval
    rw [if_neg (not_le.mpr ht), if_neg (by push_neg; exact ⟨hs0, hst⟩), if_pos hc]
  · intro ht hs0 hst hc0 hc1
    exact ⟨wilsonSpec s t c, wilson_interval_eq_ok s t c ht hs0 hst hc0 hc1⟩

/-- Witness for C6: `trials = 0`, `successes = trials + 1` and
`confidence = 1.0` each fail with their distinct error; a valid triple
succeeds. -/
theorem wilson_interval_validation_witness :
    wilson_interval 1 0 (1/2) = .error "trials must be positive."
    ∧ wilson_interval 3 2 (1/2) = .error "successes must be between 0 and trials."
    ∧ wilson_interval 1 2 1 = .error "confidence must be between 0 and 1 (exclusive)."
    ∧ ∃ iv, wilson_interval 1 2 (1/2) = .ok iv :=
  ⟨(wilson_interval_validation 1 0 (1/2)).1 le_rfl,
   (wilson_interval_validation 3 2 (1/2)).2.1 (by norm_num) (Or.inr (by norm_num)),
   (wilson_interval_validation 1 2 1).2.2.1 (by norm_num) (by norm_num) (by norm_num)
     (Or.inr le_rfl),
   (wilson_interval_validation 1 2 (1/2)).2.2.2 (by norm_num) (by norm_num) (by norm_num)
     (by norm_num) (by norm_num)⟩

/-- C7: the Trial Runner counts a rejection exactly for `p_value < alpha`
(strict): the returned `rejection_rate` is the number of p-values of the
run strictly below `alpha` divided by the trial count, and an index whose
p-value equals `alpha` is never among the counted ones. -/
theorem run_trials_counts_strict_rejections {G : Type} (randomInit : ℤ → G)
    (pf : G → ℝ × G) (t : ℤ) (α : ℝ) (seed : ℤ) (ht : 0 < t) :
    _run_trials randomInit pf t α seed
      = .ok ⟨t, α, ((countRejections (pSeq pf (randomInit seed)) α t.toNat : ℕ) : ℝ) / (t : ℝ)⟩
    ∧ ∀ i, pSeq pf (randomInit seed) i = α →
        i ∉ (List.range t.toNat).filter (fun j => pSeq pf (randomInit seed) j < α) := by
  constructor
  · unfold _run_trials
    rw [if_neg (by omega : ¬ t = 0), trialLoop_count]
  · intro i hi hmem
    have h2 := (List.mem_filter.mp hmem).2
    simp only [decide_eq_true_eq] at h2
    rw [hi] at h2
    exact lt_irrefl α h2

/-- Witness for C7: a run of two trials whose p-values are all `0 < 1`
gives rejection rate `2/2 = 1`. -/
theorem run_trials_counts_strict_rejections_witness :
    _run_trials (G := Unit) (fun _ => ()) (fun _ => ((0:ℝ), ())) 2 1 5
      = .ok (⟨2, 1, 1⟩ : SimulationResult) := by
  have h := (run_trials_counts_strict_rejections (G := Unit) (fun _ => ())
    (fun _ => ((0:ℝ), ())) 2 1 5 (by norm_num)).1
  rw [h]
  have h2 : (2:ℤ).toNat = 2 := rfl
  rw [h2]
  norm_num [countRejections, pSeq, List.range_succ, List.filter_append,
    List.filter_cons, List.filter_nil]

/-- C8: the Trial Runner result depends on the seed only through the
deterministic initialization of the random source; identical parameters
and identical random-source state yield bit-identical results. -/
theorem run_trials_deterministic {G : Type} (randomInit : ℤ → G) (pf : G → ℝ × G)
    (t : ℤ) (α : ℝ) (s₁ s₂ : ℤ) (h : randomInit s₁ = randomInit s₂) :
    _run_trials randomInit pf t α s₁ = _run_trials randomInit pf t α s₂ := by
  unfold _run_trials
  rw [h]

/-- Witness for C8 at two concrete seeds with equal initial state. -/
theorem run_trials_deterministic_witness :
    _run_trials (G := Unit) (fun _ => ()) (fun _ => ((1:ℝ), ())) 3 (1/2) 42
      = _run_trials (G := Unit) (fun _ => ()) (fun _ => ((1:ℝ), ())) 3 (1/2) 43 :=
  run_trials_deterministic (fun _ => ()) (fun _ => ((1:ℝ), ())) 3 (1/2) 42 43 rfl

/-- C9: at `trials = 100`, `confidence = 0.95` the Wilson interval of
`successes = 0` has `low = 0` and `high > 0`, and that of
`successes = 100` has `high = 1` and `low < 1`. -/
theorem wilson_interval_boundaries :
    (∃ iv0, wilson_interval 0 100 0.95 = .ok iv0 ∧ iv0.low = 0 ∧ 0 < iv0.high)
    ∧ (∃ iv1, wilson_interval 100 100 0.95 = .ok iv1 ∧ iv1.high = 1 ∧ iv1.low < 1) := by
  constructor
  · exact ⟨wilsonSpec 0 100 0.95,
      wilson_interval_eq_ok 0 100 0.95 (by norm_num) le_rfl (by norm_num)
        (by norm_num) (by norm_num),
      wilsonSpec_boundary_zero.1, wilsonSpec_boundary_zero.2⟩
  · exact ⟨wilsonSpec 100 100 0.95,
      wilson_interval_eq_ok 100 100 0.95 (by norm_num) (by norm_num) le_rfl
        (by norm_num) (by norm_num),
      wilsonSpec_boundary_full.1, wilsonSpec_boundary_full.2⟩

/-- C10: complement symmetry — for valid inputs, the interval of
`trials − successes` mirrors the interval of `successes`:
`estimate ↦ 1 − estimate`, `low ↦ 1 − high`, `high ↦ 1 − low`. -/
theorem wilson_interval_complement (s t : ℤ) (c : ℝ) (ht : 0 < t) (hs0 : 0 ≤ s)
    (hst : s ≤ t) (hc0 : 0 < c) (hc1 : c < 1) :
    ∃ iv iv', wilson_interval s t c = .ok iv
      ∧ wilson_interval (t - s) t c = .ok iv'
      ∧ iv'.estimate = 1 - iv.estimate ∧ iv'.low = 1 - iv.high
      ∧ iv'.high = 1 - iv.low := by
  obtain ⟨h1, h2, h3⟩ := wilsonSpec_complement s t c ht
  exact ⟨wilsonSpec s t c, wilsonSpec (t - s) t c,
    wilson_interval_eq_ok s t c ht hs0 hst hc0 hc1,
    wilson_interval_eq_ok (t - s) t c ht (by omega) (by omega) hc0 hc1,
    h1, h2, h3⟩

/-- Witness for C10 at `successes = 1`, `trials = 4`, `confidence = 1/2`. -/
theorem wilson_interval_complement_witness :
    ∃ iv iv', wilson_interval 1 4 (1/2) = .ok iv
      ∧ wilson_interval (4 - 1) 4 (1/2) = .ok iv'
      ∧ iv'.estimate = 1 - iv.estimate ∧ iv'.low = 1 - iv.high
      ∧ iv'.high = 1 - iv.low :=
  wilson_interval_complement 1 4 (1/2) (by norm_num) (by norm_num) (by norm_num)
    (by norm_num) (by norm_num)

end SimLab